import Mathlib

/-!
Verification of the CSV exploration app (`src/analyticapp.py`).

Shallow embedding of the app's data model and per-action logic:
tables are ordered lists of named, homogeneous columns; numeric values
are modelled as rationals (the app computes in floating point; the
statements proved here are the exact-arithmetic counterparts), text
values as `String`, missing values (`NaN`/`NaT`) as `Option.none`.

The UI framework, the dataframe library, the plotting libraries and the
PDF library are black boxes per the spec; what is embedded is the app's
own branching, guards, and the dataframe calls it makes, at the level of
their documented value semantics.
-/

namespace AnalyticApp

/-- A calendar date produced by datetime coercion (year, month, day). -/
structure DateVal where
  year : Nat
  month : Nat
  day : Nat
deriving DecidableEq, Repr

/-- A homogeneous column, tagged by its dtype: numeric (float64 modelled
as `ℚ`), text (`object` dtype holding strings), or datetime.  A `none`
entry is a missing value (`NaN` / `NaT`). -/
inductive Col where
  | numC (vals : List (Option ℚ))
  | strC (vals : List (Option String))
  | dateC (vals : List (Option DateVal))
deriving DecidableEq, Repr

/-- A table: ordered association list of column name to column, as a
pandas `DataFrame` (column names unique in practice, since `read_csv`
mangles duplicates). -/
abbrev Table := List (String × Col)

/-- Reading `df[name]`: the first column with the given name. -/
def getCol (t : Table) (name : String) : Option Col :=
  (List.find? (fun p => p.1 = name) t).map (fun p => p.2)

/-- Writing `df[name] = c`: replace the column if present, otherwise
append it at the end (pandas column-assignment semantics). -/
def setCol (t : Table) (name : String) (c : Col) : Table :=
  match t with
  | [] => [(name, c)]
  | (m, d) :: rest =>
      if m = name then (m, c) :: rest else (m, d) :: setCol rest name c

/-- The non-missing values of a column's value list (pandas `skipna`). -/
def nonMissing {α : Type} (vals : List (Option α)) : List α :=
  vals.filterMap id

/-- The date-separator test of the classifier: the regex
`[\/\.\-, ]` of `analyticapp.py` line 38 matches a string containing
`/`, `.`, `-`, `,` or a space. -/
def containsSep (s : String) : Bool :=
  s.data.any (fun c => c == '/' || c == '.' || c == '-' || c == ',' || c == ' ')

/-- Per-column date-likeness test (lines 36-39): only `object`-dtype
(text) columns are examined; `df[col].str.contains(...).any()` is true
iff some non-missing value contains a separator (`.str.contains` yields
`NaN` on missing entries and `.any()` skips them). -/
def isDateLikeCol (c : Col) : Bool :=
  match c with
  | .strC vals => vals.any (fun o => (o.map containsSep).getD false)
  | _ => false

/-- The classifier loop (lines 34-41): collect the names of date-like
columns in column order.  The `try/except: continue` of the source
swallows any per-column failure and leaves the column out (fail-open);
in this value model the test itself is total. -/
def dateColsOf (t : Table) : List String :=
  (t.filter (fun p => isDateLikeCol p.2)).map (fun p => p.1)

/-- Pandas `Series.mean()` with the default `skipna`: `NaN` (here `none`) when
there is no non-missing value, else the exact average. -/
def meanOpt (xs : List ℚ) : Option ℚ :=
  if xs = [] then none else some (xs.sum / xs.length)

/-- Pandas `Series.median()` with `skipna`: middle of the sorted values, the
average of the two middle values for an even count, `NaN` when there is
no value. -/
def medianOpt (xs : List ℚ) : Option ℚ :=
  let ys := List.insertionSort (fun a b => a ≤ b) xs
  if xs = [] then none
  else if xs.length % 2 = 1 then some (ys.getD (xs.length / 2) 0)
  else some ((ys.getD (xs.length / 2 - 1) 0 + ys.getD (xs.length / 2) 0) / 2)

/-- Pandas `Series.var()`, the square of `Series.std()` (default `ddof = 1`):
the sample variance, `NaN` when fewer than two values are present. -/
def sampleVar (xs : List ℚ) : Option ℚ :=
  if xs.length ≤ 1 then none
  else some ((xs.map (fun x => (x - xs.sum / xs.length) ^ 2)).sum / ((xs.length : ℚ) - 1))

/-- Exact square root on `ℚ`, defined when the numerator and the
denominator (in lowest terms) are perfect squares. -/
def ratSqrt (q : ℚ) : Option ℚ :=
  let n := Nat.sqrt q.num.toNat
  let d := Nat.sqrt q.den
  if 0 ≤ q.num ∧ n * n = q.num.toNat ∧ d * d = q.den then some ((n : ℚ) / (d : ℚ))
  else none

/-- Pandas `Series.std()`: the square root of the sample variance.  The app
computes it in floating point; it is modelled exactly, so it is defined
when the sample variance is a perfect rational square (every statement
proved about it uses such inputs), and `NaN` when the variance is
`NaN`. -/
def sampleStd (xs : List ℚ) : Option ℚ := (sampleVar xs).bind ratSqrt

/-- Elementwise float division as the scaling branches use it: exact for
a nonzero denominator, and `0 / 0` is IEEE `NaN`, i.e. a missing value.
(`x / 0` with `x ≠ 0` would be an infinity, not `NaN`, but no verified
branch produces it: a zero denominator in min-max scaling forces a zero
numerator since all values then equal the minimum, and likewise a zero
sample standard deviation forces every value to equal the mean.) -/
def pdDiv (a b : ℚ) : Option ℚ := if b = 0 then none else some (a / b)

/-- The z-score branch (line 139): `(x - mean) / std` elementwise;
missing entries stay missing, and a `NaN` mean or std makes every entry
`NaN`. -/
def zscoreCol (vals : List (Option ℚ)) : List (Option ℚ) :=
  match meanOpt (nonMissing vals), sampleStd (nonMissing vals) with
  | some m, some s => vals.map (fun o => o.bind (fun x => pdDiv (x - m) s))
  | _, _ => vals.map (fun _ => none)

/-- Minimum of a list of values (`Series.min()` is this on the
non-missing values, `NaN` when there are none). -/
def listMin {α : Type} [LinearOrder α] : List α → Option α
  | [] => none
  | x :: xs =>
      match listMin xs with
      | none => some x
      | some m => some (min x m)

/-- Maximum of a list of values (`Series.max()` on the non-missing
values). -/
def listMax {α : Type} [LinearOrder α] : List α → Option α
  | [] => none
  | x :: xs =>
      match listMax xs with
      | none => some x
      | some m => some (max x m)

/-- The min-max branch (line 141): `(x - min) / (max - min)`
elementwise; missing entries stay missing, and on an all-missing column
(`NaN` min and max) every entry is `NaN`. -/
def minmaxCol (vals : List (Option ℚ)) : List (Option ℚ) :=
  match listMin (nonMissing vals), listMax (nonMissing vals) with
  | some mn, some mx => vals.map (fun o => o.bind (fun x => pdDiv (x - mn) (mx - mn)))
  | _, _ => vals.map (fun _ => none)

/-- Occurrence count of a value in a list. -/
def cnt {α : Type} [DecidableEq α] (xs : List α) (a : α) : ℕ :=
  (xs.filter (fun b => b = a)).length

/-- Pandas `Series.mode()[0]` on the non-missing values: `mode()` returns the
most frequent values sorted ascending, and `[0]` takes the smallest;
`none` models the `KeyError` raised by `[0]` when there is no
non-missing value at all. -/
def modeZero {α : Type} [DecidableEq α] [LinearOrder α] (xs : List α) : Option α :=
  listMin (xs.dedup.filter (fun a => xs.dedup.all (fun b => cnt xs b ≤ cnt xs a)))

/-- Pandas `fillna(v)` with a concrete (non-`NaN`) value: write `v` into every
missing slot. -/
def fillWith {α : Type} (vals : List (Option α)) (v : α) : List (Option α) :=
  vals.map (fun o => some (o.getD v))

/-- Pandas `fillna` with a possibly-`NaN` statistic: filling with `NaN` fills
nothing (pandas treats the `NaN` fill value as nothing to write). -/
def fillWithOpt {α : Type} (vals : List (Option α)) (v : Option α) : List (Option α) :=
  match v with
  | none => vals
  | some x => fillWith vals x

/-- Does the value list contain a missing entry? -/
def hasMissing {α : Type} (vals : List (Option α)) : Bool :=
  vals.any (fun o => o.isNone)

/-- The four fill methods of the Fill Missing Values expander. -/
inductive FillMethod where
  | mean
  | median
  | mode
  | custom (s : String)
deriving DecidableEq, Repr

/-- The Fill Nulls handler (lines 97-109) on the selected column.
`Except.error` models an exception caught by the `try/except`: the
message is shown with `st.error` and the working column is left
unchanged (the exception is raised while computing the fill statistic,
before anything is written).  `Except.ok` models the `st.success`
path.  `mean`/`median` on a text column raise `TypeError`; `mode()[0]`
raises `KeyError` when the column has no non-missing value; `fillna`
with a `NaN` statistic — the mean or median of an all-missing numeric
column — writes nothing and still reports success.  A custom value
fills the missing slots of a text column with the literal; on a numeric
column pandas would upcast to a mixed-dtype column outside this value
model, so that case is modelled as the unchanged column (no verified
statement depends on it).  Datetime columns never occur in the working
copy (the only datetime coercion in the app targets the original
table), so they are modelled on the error path. -/
def fillNullsCol (m : FillMethod) (c : Col) : Except Unit Col :=
  match m, c with
  | .mean, .numC vals => .ok (.numC (fillWithOpt vals (meanOpt (nonMissing vals))))
  | .mean, _ => .error ()
  | .median, .numC vals => .ok (.numC (fillWithOpt vals (medianOpt (nonMissing vals))))
  | .median, _ => .error ()
  | .mode, .numC vals =>
      match modeZero (nonMissing vals) with
      | some v => .ok (.numC (fillWith vals v))
      | none => .error ()
  | .mode, .strC vals =>
      match modeZero (nonMissing vals) with
      | some v => .ok (.strC (fillWith vals v))
      | none => .error ()
  | .mode, .dateC _ => .error ()
  | .custom s, .strC vals => .ok (.strC (fillWith vals s))
  | .custom _, c => .ok c

/-- The three string transformations of the String Column Operations
expander. -/
inductive StrOp where
  | lower
  | upper
  | title
deriving DecidableEq, Repr

/-- Python `str.title()`: an alphabetic character is uppercased when it
follows a non-alphabetic one and lowercased otherwise. -/
def titleCaseAux : Bool → List Char → List Char
  | _, [] => []
  | prevAlpha, c :: cs =>
      (if c.isAlpha then (if prevAlpha then c.toLower else c.toUpper) else c)
        :: titleCaseAux c.isAlpha cs

/-- Python `str.title()` over a whole string. -/
def titleCase (s : String) : String := ⟨titleCaseAux false s.data⟩

/-- One of `.str.lower()`, `.str.upper()`, `.str.title()` on a single
string value. -/
def applyStrOp : StrOp → String → String
  | .lower, s => s.toLower
  | .upper, s => s.toUpper
  | .title, s => titleCase s

/-- String Column Operations (lines 111-123): the chosen `.str`
transformation maps over the column, leaving missing entries missing;
the UI offers only `object`-dtype columns, so any other column is left
untouched. -/
def strOpCol (op : StrOp) (c : Col) : Col :=
  match c with
  | .strC vals => .strC (vals.map (Option.map (applyStrOp op)))
  | c => c

/-- String Column Operations at the table level. -/
def strOpTable (cl : String) (op : StrOp) (t : Table) : Table :=
  match getCol t cl with
  | some c => setCol t cl (strOpCol op c)
  | none => t

/-- Fill Nulls at the table level: on the error path the working table
is unchanged. -/
def fillNullsTable (cl : String) (m : FillMethod) (t : Table) : Table :=
  match getCol t cl with
  | some c =>
      match fillNullsCol m c with
      | .ok c2 => setCol t cl c2
      | .error _ => t
  | none => t

/-- Number of entries in a column. -/
def colLen : Col → ℕ
  | .numC v => v.length
  | .strC v => v.length
  | .dateC v => v.length

/-- Is the column's entry at row `i` missing?  (Out-of-range reads as
non-missing; all columns of a table share one length.) -/
def missingAt (c : Col) (i : ℕ) : Bool :=
  match c with
  | .numC v => match v[i]? with | some none => true | _ => false
  | .strC v => match v[i]? with | some none => true | _ => false
  | .dateC v => match v[i]? with | some none => true | _ => false

/-- Keep the entries of `v` whose position in the mask is `true`. -/
def filterMask {α : Type} (keep : List Bool) (v : List α) : List α :=
  (v.zip keep).filterMap (fun p => if p.2 then some p.1 else none)

/-- Apply a row mask to a column. -/
def maskCol (keep : List Bool) : Col → Col
  | .numC v => .numC (filterMask keep v)
  | .strC v => .strC (filterMask keep v)
  | .dateC v => .dateC (filterMask keep v)

/-- Number of rows of a table (all columns share it). -/
def rowCount (t : Table) : ℕ :=
  match t with
  | [] => 0
  | (_, c) :: _ => colLen c

/-- Drop Nulls (lines 85-88): `dropna(subset = cols)` keeps row `i` iff
every subset column is non-missing there.  (The UI offers only existing
column names; an absent name imposes no constraint here.) -/
def dropNullsTable (cols : List String) (t : Table) : Table :=
  let keep := (List.range (rowCount t)).map
    (fun i => cols.all (fun cl =>
      match getCol t cl with
      | some c => !(missingAt c i)
      | none => true))
  t.map (fun p => (p.1, maskCol keep p.2))

/-- Rename Columns (lines 125-130): `rename(columns = ...)` maps the old
name to the new one wherever it occurs. -/
def renameTable (oldName newName : String) (t : Table) : Table :=
  t.map (fun p => (if p.1 = oldName then newName else p.1, p.2))

/-- The two scaling methods of the Numeric Transformations expander. -/
inductive NumMethod where
  | zscore
  | minmax
deriving DecidableEq, Repr

/-- Numeric Transformations (lines 132-142): write the scaled values
into a new `_zscore` / `_norm` column via column assignment; the UI
offers only numeric columns, so a non-numeric or absent name leaves the
table unchanged. -/
def numTransTable (cl : String) (m : NumMethod) (t : Table) : Table :=
  match getCol t cl with
  | some (.numC vals) =>
      match m with
      | .zscore => setCol t (cl ++ "_zscore") (.numC (zscoreCol vals))
      | .minmax => setCol t (cl ++ "_norm") (.numC (minmaxCol vals))
  | _ => t

/-- One user action in the Transform tab. -/
inductive TransformOp where
  | dropNulls (cols : List String)
  | fillNulls (col : String) (m : FillMethod)
  | strTrans (col : String) (op : StrOp)
  | rename (oldName newName : String)
  | numTrans (col : String) (m : NumMethod)
deriving DecidableEq, Repr

/-- The per-session state: the original uploaded table `df` and the
working copy `df_copy` (`df.copy()`, line 31). -/
structure SessionState where
  df : Table
  df_copy : Table
deriving DecidableEq, Repr

/-- One Transform-tab action (lines 82-148): every branch reads and
writes `df_copy` only.  The `dropNulls` and `rename` guards mirror the
source's `if drop_cols:` and `if ... and new_col:` conditions. -/
def applyTransform : TransformOp → SessionState → SessionState
  | .dropNulls cols, st =>
      if cols = [] then st
      else { st with df_copy := dropNullsTable cols st.df_copy }
  | .fillNulls cl m, st => { st with df_copy := fillNullsTable cl m st.df_copy }
  | .strTrans cl op, st => { st with df_copy := strOpTable cl op st.df_copy }
  | .rename o n, st =>
      if n = "" then st else { st with df_copy := renameTable o n st.df_copy }
  | .numTrans cl m, st => { st with df_copy := numTransTable cl m st.df_copy }

/-- Split a character list at every occurrence of a separator. -/
def splitOnChar (sep : Char) : List Char → List (List Char)
  | [] => [[]]
  | c :: cs =>
      let r := splitOnChar sep cs
      if c = sep then [] :: r
      else
        match r with
        | [] => [[c]]
        | g :: gs => (c :: g) :: gs

/-- Decimal value of a nonempty list of digit characters. -/
def digitsVal (cs : List Char) : Option ℕ :=
  if cs = [] then none
  else cs.foldl
    (fun acc c =>
      acc.bind (fun n => if c.isDigit then some (10 * n + (c.toNat - '0'.toNat)) else none))
    (some 0)

/-- Coercion `pd.to_datetime(..., errors = coerce)` on one string value — the
datetime parser is an external black box (spec section 1); it is
modelled on ISO `YYYY-MM-DD` strings, the format the verified
statements use, with anything else coerced to `NaT` (`none`). -/
def parseISODate (s : String) : Option DateVal :=
  match (splitOnChar '-' s.data).map digitsVal with
  | [some y, some m, some d] =>
      if 1 ≤ m ∧ m ≤ 12 ∧ 1 ≤ d ∧ d ≤ 31 then some ⟨y, m, d⟩ else none
  | _ => none

/-- Time Series tab (lines 170-179): selecting a date column executes
`df[date_col] = pd.to_datetime(df[date_col], errors = coerce)` — an
assignment into the ORIGINAL table `df`, replacing the selected text
column by a datetime column.  (`df_sorted` and the rendered line chart
are local and leave no further state.)  The guard mirrors the UI: only
classifier-selected — hence text — columns are offered. -/
def timeSeriesSelect (dc : String) (st : SessionState) : SessionState :=
  if dc ∈ dateColsOf st.df then
    match getCol st.df dc with
    | some (.strC vals) =>
        { st with df := setCol st.df dc (.dateC (vals.map (fun o => o.bind parseISODate))) }
    | _ => st
  else st

/-- The sixteen chart kinds offered by the Interactive Chart Builder
selectbox (lines 186-190). -/
inductive ChartKind where
  | histogram
  | pie
  | bar
  | line
  | box
  | scatter
  | violin
  | kde
  | heatmap
  | pairplot
  | treemap
  | area
  | corrMatrix
  | donut
  | hexbin
deriving DecidableEq, Repr

/-- Outcome of one chart-builder action: a rendered chart (named by its
kind and the columns it plots), a user-visible warning, or nothing. -/
inductive DispatchResult where
  | chart (k : ChartKind) (cols : List String)
  | warning (msg : String)
  | nothing
deriving DecidableEq, Repr

/-- Is the column of numeric dtype? -/
def isNumericCol (c : Col) : Bool :=
  match c with
  | .numC _ => true
  | _ => false

/-- Selection `df[sel].select_dtypes(include = number)` as a column-name list:
numeric columns among the selection, in selection order. -/
def numericSubset (t : Table) (sel : List String) : List String :=
  sel.filter (fun cl => ((getCol t cl).map isNumericCol).getD false)

/-- The Interactive Chart Builder dispatch (lines 192-262): nothing
happens with no selected columns; the two-column kinds require
`len(selected_cols) >= 2` and silently skip otherwise; the
numeric-subset kinds skip when `select_dtypes` yields an empty frame
(no numeric column or zero rows); the donut branch requires a text
first column; hexbin requires two numeric columns and otherwise shows
the source's warning.  Rendering itself is an external black box whose
failures the `try/except` (line 263) turns into an error message with
no chart; the guards embedded here run before any rendering. -/
def dispatch (t : Table) (k : ChartKind) (sel : List String) : DispatchResult :=
  match sel with
  | [] => .nothing
  | c0 :: _ =>
      match k with
      | .histogram => .chart k [c0]
      | .pie => .chart k [c0]
      | .bar => .chart k [c0]
      | .line => if 2 ≤ sel.length then .chart k (sel.take 2) else .nothing
      | .box => if 2 ≤ sel.length then .chart k (sel.take 2) else .nothing
      | .scatter => if 2 ≤ sel.length then .chart k (sel.take 2) else .nothing
      | .violin => if 2 ≤ sel.length then .chart k (sel.take 2) else .nothing
      | .kde => if 2 ≤ sel.length then .chart k (sel.take 2) else .nothing
      | .heatmap =>
          if numericSubset t sel = [] ∨ rowCount t = 0 then .nothing
          else .chart k (numericSubset t sel)
      | .pairplot =>
          if numericSubset t sel = [] ∨ rowCount t = 0 then .nothing
          else .chart k (numericSubset t sel)
      | .treemap => .chart k [c0]
      | .area =>
          if numericSubset t sel = [] ∨ rowCount t = 0 then .nothing
          else .chart k (numericSubset t sel)
      | .corrMatrix =>
          if numericSubset t sel = [] ∨ rowCount t = 0 then .nothing
          else .chart k (numericSubset t sel)
      | .donut =>
          match getCol t c0 with
          | some (.strC _) => .chart k [c0]
          | _ => .nothing
      | .hexbin =>
          if 2 ≤ (numericSubset t sel).length then .chart k ((numericSubset t sel).take 2)
          else .warning "Select at least 2 numeric columns for hexbin plot."

/-- Did a dispatch produce a chart artifact? -/
def isChartResult : DispatchResult → Bool
  | .chart _ _ => true
  | _ => false

/-- The chart families the Chart Guide can recommend. -/
inductive ChartRec where
  | histBox
  | timeSeriesLine
  | barPie
  | violinKde
deriving DecidableEq, Repr

/-- Pandas `Series.nunique()`: number of distinct non-missing values. -/
def nuniqueCol (c : Col) : ℕ :=
  match c with
  | .numC v => (nonMissing v).dedup.length
  | .strC v => (nonMissing v).dedup.length
  | .dateC v => (nonMissing v).dedup.length

/-- The Chart Guide recommender (lines 151-162): branch on numeric
dtype, then datetime64 dtype, then the distinct-value count.  The
`violinKde` outcome is the branch that also prints the sampling
caveat. -/
def recommend (c : Col) : ChartRec :=
  match c with
  | .numC _ => .histBox
  | .dateC _ => .timeSeriesLine
  | .strC _ => if nuniqueCol c < 20 then .barPie else .violinKde

/-- Chart output as the Visuals tab computes it: every branch reads the
original `df` of the session, never `df_copy`. -/
def chartFor (st : SessionState) (k : ChartKind) (sel : List String) : DispatchResult :=
  dispatch st.df k sel

/-- Chart Guide output for a session: it reads the original `df`. -/
def recommendFor (st : SessionState) (cl : String) : Option ChartRec :=
  (getCol st.df cl).map recommend

/-- A generated report document: one chart image per page, in order;
images are abstract artifact handles. -/
structure PdfDoc where
  pages : List ℕ
deriving DecidableEq, Repr

/-- Modelled from the spec: the export routine is absent from `src`
(only the `import FPDF` at line 5 remains); per spec section 4.5 the
exporter, given the session's accumulated chart images, informs the
user there is nothing to export when the sequence is empty, and
otherwise places each image on its own page of the generated document,
pages in generation order, and offers the document for download. -/
def exportReport (charts : List ℕ) : Except String PdfDoc :=
  if charts = [] then .error "No charts available to export."
  else .ok ⟨charts⟩

/-- Concrete table used to witness the classifier claim. -/
def tblC2 : Table :=
  [("a", Col.numC [some 1]), ("d", Col.strC [some "2021-01-01", none])]

/-- Concrete session: a text date column `d` and a numeric column `v`,
as after uploading a two-column CSV. -/
def stC1 : SessionState :=
  { df := [("d", Col.strC [some "2021-01-02", some "2021-01-01"]),
           ("v", Col.numC [some 1, some 2])],
    df_copy := [("d", Col.strC [some "2021-01-02", some "2021-01-01"]),
                ("v", Col.numC [some 1, some 2])] }

/-- Concrete table used to witness the chart-dispatch guard claim. -/
def tblC5 : Table :=
  [("x", Col.numC [some 1, some 2]), ("s", Col.strC [some "a", some "b"])]

/-- A classifier-date-like text column: ISO date strings. -/
def dcolC6 : Col := Col.strC [some "2021-01-01", some "2021-01-02"]

/-- Concrete table used to witness the z-score claim: sample variance 4,
sample standard deviation 2. -/
def tblC7 : Table := [("x", Col.numC [some 0, some 2, some 4])]

/-- Concrete table used to witness the min-max claim. -/
def tblC8 : Table := [("x", Col.numC [some 3, none, some 5, some 4])]

/-- Concrete table used to witness the constant-column min-max claim. -/
def tblC10 : Table := [("x", Col.numC [some 5, some 5, none])]

end AnalyticApp

namespace AnalyticApp

/-- Characterization of the separator test. -/
theorem containsSep_iff (s : String) :
    containsSep s = true ↔
      (∃ c ∈ s.data, c = '/' ∨ c = '.' ∨ c = '-' ∨ c = ',' ∨ c = ' ') := by
  unfold containsSep
  simp only [List.any_eq_true, Bool.or_eq_true, beq_iff_eq, or_assoc]

theorem isDateLikeCol_iff (c : Col) :
    isDateLikeCol c = true ↔
      (∃ vals, c = Col.strC vals ∧ ∃ s, (some s) ∈ vals ∧ containsSep s = true) := by
  cases c with
  | numC vals => simp [isDateLikeCol]
  | dateC vals => simp [isDateLikeCol]
  | strC vals =>
      simp only [isDateLikeCol, List.any_eq_true, Col.strC.injEq]
      constructor
      · rintro ⟨o, ho, h⟩
        cases o with
        | none => simp at h
        | some s => exact ⟨vals, rfl, s, ho, by simpa using h⟩
      · rintro ⟨vals', hv, s, hs, h⟩
        cases hv
        exact ⟨some s, hs, by simpa using h⟩

/-- Reading back the column just assigned. -/
theorem getCol_setCol_self (t : Table) (name : String) (c : Col) :
    getCol (setCol t name c) name = some c := by
  induction t with
  | nil => simp [setCol, getCol]
  | cons p rest ih =>
      obtain ⟨m, d⟩ := p
      by_cases h : m = name
      · subst h
        simp [setCol, getCol]
      · rw [setCol, if_neg h]
        unfold getCol
        rw [List.find?_cons_of_neg _ (by simpa using h)]
        exact ih

/-- Assigning one column leaves reads of any other name unchanged. -/
theorem getCol_setCol_ne (t : Table) {name n : String} (h : name ≠ n) (c : Col) :
    getCol (setCol t n c) name = getCol t name := by
  induction t with
  | nil =>
      unfold setCol getCol
      rw [List.find?_cons_of_neg _ (by simpa using Ne.symm h)]
  | cons p rest ih =>
      obtain ⟨m, d⟩ := p
      by_cases hm : m = n
      · subst hm
        rw [setCol, if_pos rfl]
        unfold getCol
        rw [List.find?_cons_of_neg _ (by simpa using fun he => h he.symm),
          List.find?_cons_of_neg _ (by simpa using fun he => h he.symm)]
      · rw [setCol, if_neg hm]
        by_cases hname : m = name
        · subst hname
          unfold getCol
          rw [List.find?_cons_of_pos _ (by simp), List.find?_cons_of_pos _ (by simp)]
        · unfold getCol
          rw [List.find?_cons_of_neg _ (by simpa using hname),
            List.find?_cons_of_neg _ (by simpa using hname)]
          exact ih

/-- Membership in the non-missing values. -/
theorem mem_nonMissing {α : Type} {vals : List (Option α)} {x : α} :
    x ∈ nonMissing vals ↔ (some x) ∈ vals := by
  simp [nonMissing, List.mem_filterMap, id]

/-- The non-missing list is empty iff every entry is missing. -/
theorem nonMissing_eq_nil_iff {α : Type} (vals : List (Option α)) :
    nonMissing vals = [] ↔ ∀ o ∈ vals, o = none := by
  induction vals with
  | nil => simp [nonMissing]
  | cons o rest ih =>
      cases o with
      | none =>
          simp only [nonMissing, List.filterMap_cons] at ih ⊢
          simp [ih]
      | some x => simp [nonMissing, List.filterMap_cons]

/-- Mapping a total elementwise function commutes with dropping the
missing entries. -/
theorem nonMissing_map_bind {α β : Type} (vals : List (Option α)) (f : α → β) :
    nonMissing (vals.map (fun o => o.bind (fun x => some (f x)))) =
      (nonMissing vals).map f := by
  induction vals with
  | nil => rfl
  | cons o rest ih =>
      cases o with
      | none => simpa [nonMissing, List.filterMap_cons] using ih
      | some x =>
          simp only [nonMissing, List.map_cons, List.filterMap_cons] at ih ⊢
          simp [ih]

/-- Division `pdDiv` by a nonzero denominator is exact division. -/
theorem pdDiv_of_ne {a b : ℚ} (h : b ≠ 0) : pdDiv a b = some (a / b) := by
  simp [pdDiv, h]

/-- Filling with a concrete value leaves no missing entry. -/
theorem hasMissing_fillWith {α : Type} (vals : List (Option α)) (v : α) :
    hasMissing (fillWith vals v) = false := by
  simp [hasMissing, fillWith, List.any_map, Function.comp]

/-- A list has no missing entry iff no member is `none`. -/
theorem hasMissing_eq_false_iff {α : Type} (vals : List (Option α)) :
    hasMissing vals = false ↔ ∀ o ∈ vals, o ≠ none := by
  simp only [hasMissing, List.any_eq_false, Bool.not_eq_true]
  constructor
  · intro h o ho
    have := h o ho
    cases o <;> simp_all
  · intro h o ho
    have := h o ho
    cases o <;> simp_all

/-- The function `listMin` is `none` exactly on the empty list. -/
theorem listMin_eq_none_iff {α : Type} [LinearOrder α] (l : List α) :
    listMin l = none ↔ l = [] := by
  cases l with
  | nil => simp [listMin]
  | cons x xs =>
      rw [listMin]
      cases h : listMin xs <;> simp

/-- The function `listMax` is `none` exactly on the empty list. -/
theorem listMax_eq_none_iff {α : Type} [LinearOrder α] (l : List α) :
    listMax l = none ↔ l = [] := by
  cases l with
  | nil => simp [listMax]
  | cons x xs =>
      rw [listMax]
      cases h : listMax xs <;> simp

/-- The minimum is a member. -/
theorem listMin_mem {α : Type} [LinearOrder α] :
    ∀ {l : List α} {m : α}, listMin l = some m → m ∈ l := by
  intro l
  induction l with
  | nil => intro m h; simp [listMin] at h
  | cons x xs ih =>
      intro m h
      rw [listMin] at h
      cases hx : listMin xs with
      | none =>
          rw [hx] at h
          simp only [Option.some.injEq] at h
          simp [← h]
      | some mm =>
          rw [hx] at h
          simp only [Option.some.injEq] at h
          rcases le_total x mm with hle | hle
          · rw [min_eq_left hle] at h
            simp [← h]
          · rw [min_eq_right hle] at h
            subst h
            exact List.mem_cons_of_mem _ (ih hx)

/-- The minimum bounds every member from below. -/
theorem listMin_le {α : Type} [LinearOrder α] :
    ∀ {l : List α} {m : α}, listMin l = some m → ∀ x ∈ l, m ≤ x := by
  intro l
  induction l with
  | nil => intro m h; simp [listMin] at h
  | cons x xs ih =>
      intro m h y hy
      rw [listMin] at h
      cases hx : listMin xs with
      | none =>
          rw [hx] at h
          rw [listMin_eq_none_iff] at hx
          subst hx
          simp only [Option.some.injEq] at h
          subst h
          simp at hy
          simp [hy]
      | some mm =>
          rw [hx] at h
          simp only [Option.some.injEq] at h
          subst h
          rcases List.mem_cons.mp hy with rfl | hy2
          · exact min_le_left _ _
          · exact le_trans (min_le_right _ _) (ih hx y hy2)

/-- A member that bounds every member from below is the minimum. -/
theorem listMin_eq_some_of {α : Type} [LinearOrder α] {l : List α} {m : α}
    (hm : m ∈ l) (hle : ∀ x ∈ l, m ≤ x) : listMin l = some m := by
  cases h : listMin l with
  | none =>
      rw [listMin_eq_none_iff] at h
      subst h
      simp at hm
  | some m0 =>
      have h1 : m0 ∈ l := listMin_mem h
      have h2 : m0 ≤ m := listMin_le h m hm
      have h3 : m ≤ m0 := hle m0 h1
      rw [le_antisymm h2 h3]

/-- The maximum is a member. -/
theorem listMax_mem {α : Type} [LinearOrder α] :
    ∀ {l : List α} {m : α}, listMax l = some m → m ∈ l := by
  intro l
  induction l with
  | nil => intro m h; simp [listMax] at h
  | cons x xs ih =>
      intro m h
      rw [listMax] at h
      cases hx : listMax xs with
      | none =>
          rw [hx] at h
          simp only [Option.some.injEq] at h
          simp [← h]
      | some mm =>
          rw [hx] at h
          simp only [Option.some.injEq] at h
          rcases le_total x mm with hle | hle
          · rw [max_eq_right hle] at h
            subst h
            exact List.mem_cons_of_mem _ (ih hx)
          · rw [max_eq_left hle] at h
            simp [← h]

/-- The maximum bounds every member from above. -/
theorem le_listMax {α : Type} [LinearOrder α] :
    ∀ {l : List α} {m : α}, listMax l = some m → ∀ x ∈ l, x ≤ m := by
  intro l
  induction l with
  | nil => intro m h; simp [listMax] at h
  | cons x xs ih =>
      intro m h y hy
      rw [listMax] at h
      cases hx : listMax xs with
      | none =>
          rw [hx] at h
          rw [listMax_eq_none_iff] at hx
          subst hx
          simp only [Option.some.injEq] at h
          subst h
          simp at hy
          simp [hy]
      | some mm =>
          rw [hx] at h
          simp only [Option.some.injEq] at h
          subst h
          rcases List.mem_cons.mp hy with rfl | hy2
          · exact le_max_left _ _
          · exact le_trans (ih hx y hy2) (le_max_right _ _)

/-- A member that bounds every member from above is the maximum. -/
theorem listMax_eq_some_of {α : Type} [LinearOrder α] {l : List α} {m : α}
    (hm : m ∈ l) (hle : ∀ x ∈ l, x ≤ m) : listMax l = some m := by
  cases h : listMax l with
  | none =>
      rw [listMax_eq_none_iff] at h
      subst h
      simp at hm
  | some m0 =>
      have h1 : m0 ∈ l := listMax_mem h
      have h2 : m ≤ m0 := le_listMax h m hm
      have h3 : m0 ≤ m := hle m0 h1
      rw [le_antisymm h3 h2]

/-- A nonempty list has an element of maximal image under `f`. -/
theorem exists_max_image {α : Type} (f : α → ℕ) :
    ∀ (l : List α), l ≠ [] → ∃ a ∈ l, ∀ b ∈ l, f b ≤ f a := by
  intro l
  induction l with
  | nil => intro h; exact absurd rfl h
  | cons x xs ih =>
      intro _
      by_cases hxs : xs = []
      · subst hxs
        exact ⟨x, by simp, by simp⟩
      · obtain ⟨a, ha, hmax⟩ := ih hxs
        by_cases hfa : f a ≤ f x
        · refine ⟨x, by simp, ?_⟩
          intro b hb
          rcases List.mem_cons.mp hb with rfl | hb2
          · exact le_refl _
          · exact le_trans (hmax b hb2) hfa
        · refine ⟨a, List.mem_cons_of_mem _ ha, ?_⟩
          intro b hb
          rcases List.mem_cons.mp hb with rfl | hb2
          · exact le_of_not_le hfa
          · exact hmax b hb2

/-- Pandas `mode()[0]` exists on any list with at least one value. -/
theorem modeZero_isSome {α : Type} [DecidableEq α] [LinearOrder α]
    {xs : List α} (h : xs ≠ []) : ∃ v, modeZero xs = some v := by
  have hd : xs.dedup ≠ [] := by
    intro hnil
    exact h ((List.dedup_eq_nil xs).mp hnil)
  obtain ⟨a, ha, hmax⟩ := exists_max_image (cnt xs) xs.dedup hd
  have hfil : a ∈ xs.dedup.filter
      (fun a => xs.dedup.all (fun b => cnt xs b ≤ cnt xs a)) := by
    rw [List.mem_filter]
    refine ⟨ha, ?_⟩
    rw [List.all_eq_true]
    intro b hb
    exact decide_eq_true (hmax b hb)
  cases hmin : listMin (xs.dedup.filter
      (fun a => xs.dedup.all (fun b => cnt xs b ≤ cnt xs a))) with
  | none =>
      rw [listMin_eq_none_iff] at hmin
      rw [hmin] at hfil
      simp at hfil
  | some v => exact ⟨v, by rw [modeZero, hmin]⟩

/-- Sum of an affine image of a list. -/
theorem sum_map_sub_mul (xs : List ℚ) (b a : ℚ) :
    (xs.map (fun x => (x - b) * a)).sum = (xs.sum - xs.length * b) * a := by
  induction xs with
  | nil => simp
  | cons x rest ih =>
      simp only [List.map_cons, List.sum_cons, List.length_cons, ih]
      push_cast
      ring

/-- Sum of squares of a scaled, shifted list. -/
theorem sum_map_sq_mul (xs : List ℚ) (b a : ℚ) :
    (xs.map (fun x => ((x - b) * a) ^ 2)).sum =
      (xs.map (fun x => (x - b) ^ 2)).sum * a ^ 2 := by
  induction xs with
  | nil => simp
  | cons x rest ih =>
      simp only [List.map_cons, List.sum_cons, ih]
      ring

/-- Correctness of `ratSqrt`: it really is a square root. -/
theorem ratSqrt_correct {q s : ℚ} (h : ratSqrt q = some s) : 0 ≤ s ∧ s ^ 2 = q := by
  unfold ratSqrt at h
  by_cases hc : 0 ≤ q.num ∧
      Nat.sqrt q.num.toNat * Nat.sqrt q.num.toNat = q.num.toNat ∧
      Nat.sqrt q.den * Nat.sqrt q.den = q.den
  · rw [if_pos hc] at h
    obtain ⟨h1, h2, h3⟩ := hc
    have hs : s = ((Nat.sqrt q.num.toNat : ℚ) / (Nat.sqrt q.den : ℚ)) :=
      (Option.some.injEq _ _ ▸ h).symm
    have hdenpos : 0 < q.den := q.pos
    have hdne : (Nat.sqrt q.den : ℚ) ≠ 0 := by
      have : Nat.sqrt q.den ≠ 0 := by
        intro h0
        rw [h0] at h3
        omega
      exact_mod_cast this
    constructor
    · rw [hs]
      exact div_nonneg (Nat.cast_nonneg _) (Nat.cast_nonneg _)
    · rw [hs, div_pow]
      have hnum : ((Nat.sqrt q.num.toNat : ℚ)) ^ 2 = (q.num : ℚ) := by
        have h2q : ((Nat.sqrt q.num.toNat : ℚ)) * ((Nat.sqrt q.num.toNat : ℚ)) =
            ((q.num.toNat : ℕ) : ℚ) := by exact_mod_cast h2
        have h1q : (((q.num.toNat : ℕ)) : ℚ) = ((q.num : ℤ) : ℚ) := by
          exact_mod_cast Int.toNat_of_nonneg h1
        rw [sq, h2q, h1q]
      have hden : ((Nat.sqrt q.den : ℚ)) ^ 2 = (q.den : ℚ) := by
        have h3q : ((Nat.sqrt q.den : ℚ)) * ((Nat.sqrt q.den : ℚ)) =
            ((q.den : ℕ) : ℚ) := by exact_mod_cast h3
        rw [sq, h3q]
      rw [hnum, hden, Rat.num_div_den]
  · rw [if_neg hc] at h
    cases h

/-- A string is never equal to itself extended by a nonempty suffix. -/
theorem self_ne_append {c s : String} (h : s ≠ "") : c ≠ c ++ s := by
  intro he
  apply h
  have hl := congrArg String.length he
  rw [String.length_append] at hl
  have hz : s.length = 0 := by omega
  obtain ⟨d⟩ := s
  have hz2 : d.length = 0 := hz
  have hd : d = [] := List.eq_nil_of_length_eq_zero hz2
  subst hd
  rfl

/-- Helper: unfolding a successful `getCol` into the underlying entry. -/
theorem getCol_eq_some {t : Table} {name : String} {c : Col}
    (h : getCol t name = some c) :
    ∃ q, List.find? (fun p => p.1 = name) t = some q ∧ q.1 = name ∧ q.2 = c ∧ q ∈ t := by
  unfold getCol at h
  rw [Option.map_eq_some'] at h
  obtain ⟨q, hq, hc⟩ := h
  refine ⟨q, hq, ?_, hc, List.mem_of_find?_eq_some hq⟩
  have := List.find?_some hq
  exact of_decide_eq_true this

/-- C2: a column of the uploaded table is marked date-like by the
classifier iff it is a text column one of whose (non-missing) values
contains `/`, `.`, `-`, `,` or a space; in particular non-text columns
are never marked date-like, and failures of the per-column test are
swallowed by the `try/except` so a failing column is simply left out of
the date-like list (in this value model the test itself is total). -/
theorem claim2_classifier_date_like (t : Table)
    (hnd : (t.map Prod.fst).Nodup) (name : String) (c : Col)
    (h : getCol t name = some c) :
    name ∈ dateColsOf t ↔
      ∃ vals, c = Col.strC vals ∧ ∃ s, (some s) ∈ vals ∧
        ∃ ch ∈ s.data, ch = '/' ∨ ch = '.' ∨ ch = '-' ∨ ch = ',' ∨ ch = ' ' := by
  obtain ⟨q, hfind, hqname, hqc, hqmem⟩ := getCol_eq_some h
  constructor
  · intro hmem
    simp only [dateColsOf, List.mem_map, List.mem_filter] at hmem
    obtain ⟨p, ⟨hpmem, hpdl⟩, hpname⟩ := hmem
    have hpq : p = q := by
      refine List.inj_on_of_nodup_map hnd hpmem hqmem ?_
      simp [hpname, hqname]
    subst hpq
    rw [hqc] at hpdl
    rw [isDateLikeCol_iff] at hpdl
    obtain ⟨vals, hv, s, hs, hsep⟩ := hpdl
    exact ⟨vals, hv, s, hs, (containsSep_iff s).mp hsep⟩
  · rintro ⟨vals, hv, s, hs, hch⟩
    have hdl : isDateLikeCol c = true :=
      (isDateLikeCol_iff c).mpr ⟨vals, hv, s, hs, (containsSep_iff s).mpr hch⟩
    simp only [dateColsOf, List.mem_map, List.mem_filter]
    exact ⟨q, ⟨hqmem, by rw [hqc]; exact hdl⟩, hqname⟩

/-- Witness for C2 at a concrete table: the column `d` holds the string
`2021-01-01`, which contains `-`, so it is in the date-like list. -/
theorem claim2_classifier_date_like_witness :
    ((tblC2.map Prod.fst).Nodup ∧
      getCol tblC2 "d" = some (Col.strC [some "2021-01-01", none])) ∧
      ("d" ∈ dateColsOf tblC2 ↔
        ∃ vals, Col.strC [some "2021-01-01", none] = Col.strC vals ∧
          ∃ s, (some s) ∈ vals ∧
            ∃ ch ∈ s.data, ch = '/' ∨ ch = '.' ∨ ch = '-' ∨ ch = ',' ∨ ch = ' ') :=
  ⟨⟨by decide, by decide⟩,
    claim2_classifier_date_like tblC2 (by decide) "d" _ (by decide)⟩

/-- Frame helper: every Transform-tab action leaves the original `df`
of the session untouched (all five handlers read and write `df_copy`
only). -/
theorem applyTransform_df (op : TransformOp) (st : SessionState) :
    (applyTransform op st).df = st.df := by
  cases op with
  | dropNulls cols => rw [applyTransform]; split <;> rfl
  | fillNulls cl m => rfl
  | strTrans cl o => rfl
  | rename o n => rw [applyTransform]; split <;> rfl
  | numTrans cl m => rfl

/-- Frame helper: the time-series tab never touches the working copy. -/
theorem timeSeriesSelect_df_copy (dc : String) (st : SessionState) :
    (timeSeriesSelect dc st).df_copy = st.df_copy := by
  rw [timeSeriesSelect]
  split
  · split <;> rfl
  · rfl

/-- C1 counterexample: on a concrete two-column session, selecting the
date column `d` and the numeric column `v` in the time-series section
modifies the original table — `df[date_col] = pd.to_datetime(...)`
(line 177) replaces the text column of `df` itself by a datetime
column. -/
theorem claim1_counterexample : (timeSeriesSelect "d" stC1).df ≠ stC1.df := by
  decide

/-- C1 (amended): every Transform-tab operation (null drop, null fill,
string case change, rename, numeric scaling) leaves the original table
unchanged, mutating only the working copy; but selecting a date column
in the time-series section does modify the original table: its selected
column is replaced by the datetime-coerced version (the working copy is
untouched there). -/
theorem claim1_original_mutation (op : TransformOp) (st : SessionState)
    (dc : String) (vals : List (Option String))
    (hdc : dc ∈ dateColsOf st.df)
    (hcol : getCol st.df dc = some (Col.strC vals)) :
    (applyTransform op st).df = st.df ∧
    (timeSeriesSelect dc st).df =
      setCol st.df dc (Col.dateC (vals.map (fun o => o.bind parseISODate))) ∧
    (timeSeriesSelect dc st).df_copy = st.df_copy := by
  refine ⟨applyTransform_df op st, ?_, timeSeriesSelect_df_copy dc st⟩
  rw [timeSeriesSelect, if_pos hdc, hcol]

/-- Witness for C1 at the concrete session `stC1`, with a rename as the
sample transformation. -/
theorem claim1_original_mutation_witness :
    ("d" ∈ dateColsOf stC1.df ∧
      getCol stC1.df "d" = some (Col.strC [some "2021-01-02", some "2021-01-01"])) ∧
    ((applyTransform (TransformOp.rename "v" "w") stC1).df = stC1.df ∧
      (timeSeriesSelect "d" stC1).df =
        setCol stC1.df "d"
          (Col.dateC ([some "2021-01-02", some "2021-01-01"].map
            (fun o => o.bind parseISODate))) ∧
      (timeSeriesSelect "d" stC1).df_copy = stC1.df_copy) :=
  ⟨⟨by decide, by decide⟩,
    claim1_original_mutation (TransformOp.rename "v" "w") stC1 "d" _
      (by decide) (by decide)⟩

/-- C9: every chart of the Visuals tab and every Chart Guide
recommendation is computed from the original uploaded table `df`, not
the working copy, so no Transform-tab operation ever changes chart
output or recommendations within the session. -/
theorem claim9_visuals_read_original (op : TransformOp) (st : SessionState)
    (k : ChartKind) (sel : List String) (cl : String) :
    chartFor (applyTransform op st) k sel = chartFor st k sel ∧
    recommendFor (applyTransform op st) cl = recommendFor st cl := by
  constructor
  · rw [chartFor, chartFor, applyTransform_df]
  · rw [recommendFor, recommendFor, applyTransform_df]

/-- C4 (modelled from the spec — the export routine is absent from
`src`, see `exportReport`): with no accumulated chart image the
exporter only informs the user; with a nonempty sequence it produces a
document whose pages are exactly the chart images, one per page, in
generation order. -/
theorem claim4_export_report (charts : List ℕ) (h : charts ≠ []) :
    exportReport [] = Except.error "No charts available to export." ∧
    ∃ doc : PdfDoc, exportReport charts = Except.ok doc ∧ doc.pages = charts := by
  refine ⟨rfl, ⟨charts⟩, ?_, rfl⟩
  rw [exportReport, if_neg h]

/-- Witness for C4 on a concrete two-chart session. -/
theorem claim4_export_report_witness :
    ([7, 3] ≠ ([] : List ℕ)) ∧
    (exportReport [] = Except.error "No charts available to export." ∧
      ∃ doc : PdfDoc, exportReport [7, 3] = Except.ok doc ∧ doc.pages = [7, 3]) :=
  ⟨by decide, claim4_export_report [7, 3] (by decide)⟩

/-- C5: dispatching any two-column chart kind (Line Chart, Boxplot,
Scatter Plot, Violin Plot, KDE Plot, Hexbin Plot) with fewer than two
selected columns produces no chart artifact — the guarded branch is
skipped (hexbin shows its warning instead) — and cannot crash the
session: `dispatch` is total and the surrounding `try/except` catches
rendering errors anyway. -/
theorem claim5_two_column_guard (t : Table) (k : ChartKind) (sel : List String)
    (hk : k = ChartKind.line ∨ k = ChartKind.box ∨ k = ChartKind.scatter ∨
      k = ChartKind.violin ∨ k = ChartKind.kde ∨ k = ChartKind.hexbin)
    (hlen : sel.length < 2) :
    isChartResult (dispatch t k sel) = false := by
  cases sel with
  | nil => rcases hk with rfl | rfl | rfl | rfl | rfl | rfl <;> rfl
  | cons c0 rest =>
      have h1 : rest = [] := by
        cases rest with
        | nil => rfl
        | cons _ _ => simp at hlen; omega
      subst h1
      have hnum : ¬ (2 ≤ (numericSubset t [c0]).length) := by
        have hle : (numericSubset t [c0]).length ≤ [c0].length :=
          List.length_filter_le _ _
        simp at hle
        omega
      rcases hk with rfl | rfl | rfl | rfl | rfl | rfl <;>
        simp [dispatch, isChartResult, hnum]

/-- Witness for C5: one selected column and the Line Chart kind on a
concrete table. -/
theorem claim5_two_column_guard_witness :
    ((ChartKind.line = ChartKind.line ∨ ChartKind.line = ChartKind.box ∨
      ChartKind.line = ChartKind.scatter ∨ ChartKind.line = ChartKind.violin ∨
      ChartKind.line = ChartKind.kde ∨ ChartKind.line = ChartKind.hexbin) ∧
      (["x"].length < 2)) ∧
    isChartResult (dispatch tblC5 ChartKind.line ["x"]) = false :=
  ⟨⟨Or.inl rfl, by decide⟩,
    claim5_two_column_guard tblC5 ChartKind.line ["x"] (Or.inl rfl) (by decide)⟩

/-- C6 counterexample: a column the classifier marks date-like — a text
column of ISO date strings, each containing `-` — receives the bar/pie
recommendation, not the time-series one: the Chart Guide branches on
datetime64 dtype (line 156), which a text column never has. -/
theorem claim6_counterexample :
    isDateLikeCol dcolC6 = true ∧ recommend dcolC6 = ChartRec.barPie ∧
      recommend dcolC6 ≠ ChartRec.timeSeriesLine :=
  ⟨by decide, by decide, by decide⟩

/-- C6 (amended): the recommender is a pure deterministic function of
the selected column's dtype and distinct-value count: a numeric column
yields histogram/boxplot; a datetime64-typed column yields the
time-series recommendation (which a classifier-date-like TEXT column
never does — such columns fall through to the distinct-count
branches); any other column with fewer than 20 distinct values yields
bar/pie; otherwise violin/KDE with the sampling caveat note. -/
theorem claim6_recommender (nv : List (Option ℚ)) (sv : List (Option String))
    (dv : List (Option DateVal)) :
    recommend (Col.numC nv) = ChartRec.histBox ∧
    recommend (Col.dateC dv) = ChartRec.timeSeriesLine ∧
    recommend (Col.strC sv) =
      (if nuniqueCol (Col.strC sv) < 20 then ChartRec.barPie else ChartRec.violinKde) ∧
    recommend (Col.strC sv) ≠ ChartRec.timeSeriesLine := by
  refine ⟨rfl, rfl, rfl, ?_⟩
  rw [recommend]
  split <;> simp

/-- C10: applying min-max to a non-empty numeric column whose values
are all equal raises no error — the branch is total — and the division
by `max - min = 0` makes every entry of the newly appended `_norm`
column `0 / 0 = NaN`, i.e. missing, while the handler still reaches its
`st.success` call. -/
theorem claim10_minmax_constant (t : Table) (cl : String)
    (vals : List (Option ℚ)) (x0 : ℚ)
    (hcol : getCol t cl = some (Col.numC vals))
    (hne : nonMissing vals ≠ [])
    (hall : ∀ x ∈ nonMissing vals, x = x0) :
    numTransTable cl NumMethod.minmax t =
      setCol t (cl ++ "_norm") (Col.numC (minmaxCol vals)) ∧
    (minmaxCol vals).length = vals.length ∧
    ∀ o ∈ minmaxCol vals, o = none := by
  obtain ⟨y, hy⟩ := List.exists_mem_of_ne_nil _ hne
  have hx0 : x0 ∈ nonMissing vals := hall y hy ▸ hy
  have hmin : listMin (nonMissing vals) = some x0 :=
    listMin_eq_some_of hx0 (fun x hx => le_of_eq (hall x hx).symm)
  have hmax : listMax (nonMissing vals) = some x0 :=
    listMax_eq_some_of hx0 (fun x hx => le_of_eq (hall x hx))
  have hmm : minmaxCol vals =
      vals.map (fun o => o.bind (fun x => pdDiv (x - x0) (x0 - x0))) := by
    rw [minmaxCol, hmin, hmax]
  refine ⟨by rw [numTransTable, hcol], by rw [hmm, List.length_map], ?_⟩
  intro o ho
  rw [hmm] at ho
  obtain ⟨a, ha, hao⟩ := List.mem_map.mp ho
  cases a with
  | none => simpa using hao.symm
  | some x =>
      rw [← hao]
      simp [pdDiv, sub_self]

/-- Witness for C10 on a concrete constant column with a missing
entry. -/
theorem claim10_minmax_constant_witness :
    (getCol tblC10 "x" = some (Col.numC [some 5, some 5, none]) ∧
      nonMissing [some (5 : ℚ), some 5, none] ≠ [] ∧
      ∀ x ∈ nonMissing [some (5 : ℚ), some 5, none], x = 5) ∧
    (numTransTable "x" NumMethod.minmax tblC10 =
        setCol tblC10 ("x" ++ "_norm") (Col.numC (minmaxCol [some 5, some 5, none])) ∧
      (minmaxCol [some (5 : ℚ), some 5, none]).length =
        [some (5 : ℚ), some 5, none].length ∧
      ∀ o ∈ minmaxCol [some (5 : ℚ), some 5, none], o = none) :=
  ⟨⟨by decide, by decide, by decide⟩,
    claim10_minmax_constant tblC10 "x" [some 5, some 5, none] 5
      (by decide) (by decide) (by decide)⟩

/-- C8: min-max on a numeric column with nonzero range appends the new
`_norm` column — leaving the source column intact — whose entries are
`(x - min) / (max - min)` (missing entries staying missing), and the
non-missing values of the new column have minimum 0 and maximum 1. -/
theorem claim8_minmax_bounds (t : Table) (cl : String)
    (vals : List (Option ℚ)) (mn mx : ℚ)
    (hcol : getCol t cl = some (Col.numC vals))
    (hmin : listMin (nonMissing vals) = some mn)
    (hmax : listMax (nonMissing vals) = some mx)
    (hrange : mn ≠ mx) :
    getCol (numTransTable cl NumMethod.minmax t) (cl ++ "_norm") =
      some (Col.numC (minmaxCol vals)) ∧
    getCol (numTransTable cl NumMethod.minmax t) cl = some (Col.numC vals) ∧
    minmaxCol vals =
      vals.map (fun o => o.bind (fun x => some ((x - mn) / (mx - mn)))) ∧
    listMin (nonMissing (minmaxCol vals)) = some 0 ∧
    listMax (nonMissing (minmaxCol vals)) = some 1 := by
  have hmnle : mn ≤ mx := le_listMax hmax mn (listMin_mem hmin)
  have hlt : mn < mx := lt_of_le_of_ne hmnle hrange
  have hpos : (0 : ℚ) < mx - mn := sub_pos.mpr hlt
  have hsub : mx - mn ≠ 0 := ne_of_gt hpos
  have htab : numTransTable cl NumMethod.minmax t =
      setCol t (cl ++ "_norm") (Col.numC (minmaxCol vals)) := by
    rw [numTransTable, hcol]
  have hmm : minmaxCol vals =
      vals.map (fun o => o.bind (fun x => some ((x - mn) / (mx - mn)))) := by
    rw [minmaxCol, hmin, hmax]
    simp only [pdDiv_of_ne hsub]
  have hnm : nonMissing (minmaxCol vals) =
      (nonMissing vals).map (fun x => (x - mn) / (mx - mn)) := by
    rw [hmm, nonMissing_map_bind]
  refine ⟨?_, ?_, hmm, ?_, ?_⟩
  · rw [htab, getCol_setCol_self]
  · rw [htab, getCol_setCol_ne _ (self_ne_append (by decide)) _]
    exact hcol
  · rw [hnm]
    have h0mem : (0 : ℚ) ∈ (nonMissing vals).map (fun x => (x - mn) / (mx - mn)) :=
      List.mem_map.mpr ⟨mn, listMin_mem hmin, by rw [sub_self, zero_div]⟩
    refine listMin_eq_some_of h0mem ?_
    intro y hy
    obtain ⟨x, hx, hxy⟩ := List.mem_map.mp hy
    rw [← hxy]
    exact div_nonneg (sub_nonneg.mpr (listMin_le hmin x hx)) (le_of_lt hpos)
  · rw [hnm]
    have h1mem : (1 : ℚ) ∈ (nonMissing vals).map (fun x => (x - mn) / (mx - mn)) :=
      List.mem_map.mpr ⟨mx, listMax_mem hmax, div_self hsub⟩
    refine listMax_eq_some_of h1mem ?_
    intro y hy
    obtain ⟨x, hx, hxy⟩ := List.mem_map.mp hy
    rw [← hxy, div_le_one hpos]
    exact sub_le_sub_right (le_listMax hmax x hx) mn

/-- Witness for C8 on a concrete column with minimum 3 and maximum 5. -/
theorem claim8_minmax_bounds_witness :
    (getCol tblC8 "x" = some (Col.numC [some 3, none, some 5, some 4]) ∧
      listMin (nonMissing [some (3 : ℚ), none, some 5, some 4]) = some 3 ∧
      listMax (nonMissing [some (3 : ℚ), none, some 5, some 4]) = some 5 ∧
      (3 : ℚ) ≠ 5) ∧
    (getCol (numTransTable "x" NumMethod.minmax tblC8) ("x" ++ "_norm") =
        some (Col.numC (minmaxCol [some 3, none, some 5, some 4])) ∧
      getCol (numTransTable "x" NumMethod.minmax tblC8) "x" =
        some (Col.numC [some 3, none, some 5, some 4]) ∧
      minmaxCol [some (3 : ℚ), none, some 5, some 4] =
        [some (3 : ℚ), none, some 5, some 4].map
          (fun o => o.bind (fun x => some ((x - 3) / (5 - 3)))) ∧
      listMin (nonMissing (minmaxCol [some (3 : ℚ), none, some 5, some 4])) = some 0 ∧
      listMax (nonMissing (minmaxCol [some (3 : ℚ), none, some 5, some 4])) = some 1) :=
  ⟨⟨by decide, by decide, by decide, by decide⟩,
    claim8_minmax_bounds tblC8 "x" [some 3, none, some 5, some 4] 3 5
      (by decide) (by decide) (by decide) (by decide)⟩

/-- C3 counterexample: the claim fails in two places.  (1) On the
all-missing numeric column `[none]`, Mean fill computes a `NaN` mean,
`fillna(NaN)` writes nothing, and the handler reports SUCCESS — not the
claimed error — with the column still all-missing.  (2) On the text
column `[some "a", none]`, which has a non-missing value, Mean fill
raises `TypeError` (caught, error shown) and leaves the missing value
in place, contradicting the claimed "no missing values remain" for
every column with a non-missing value. -/
theorem claim3_counterexample :
    (fillNullsCol FillMethod.mean (Col.numC [none]) = Except.ok (Col.numC [none]) ∧
      hasMissing ([none] : List (Option ℚ)) = true) ∧
    (fillNullsCol FillMethod.mean (Col.strC [some "a", none]) = Except.error () ∧
      hasMissing [some "a", none] = true) :=
  ⟨⟨rfl, by decide⟩, ⟨rfl, by decide⟩⟩

/-- C3 (amended): null-fill with Mean, Median or Mode leaves no missing
value in a NUMERIC target column with at least one non-missing value,
and Mode does the same for a text column; on a text column Mean and
Median instead report an error and leave the column unchanged; and on
an all-missing numeric column Mean and Median are silent no-ops that
report success and leave every value missing, while Mode reports an
error and leaves the column unchanged. -/
theorem claim3_fill_nulls (nvals avals : List (Option ℚ))
    (svals : List (Option String))
    (hnum : nonMissing nvals ≠ []) (hstr : nonMissing svals ≠ [])
    (hall : ∀ o ∈ avals, o = none) :
    (∃ r, fillNullsCol FillMethod.mean (Col.numC nvals) = Except.ok (Col.numC r) ∧
      hasMissing r = false) ∧
    (∃ r, fillNullsCol FillMethod.median (Col.numC nvals) = Except.ok (Col.numC r) ∧
      hasMissing r = false) ∧
    (∃ r, fillNullsCol FillMethod.mode (Col.numC nvals) = Except.ok (Col.numC r) ∧
      hasMissing r = false) ∧
    (∃ r, fillNullsCol FillMethod.mode (Col.strC svals) = Except.ok (Col.strC r) ∧
      hasMissing r = false) ∧
    fillNullsCol FillMethod.mean (Col.strC svals) = Except.error () ∧
    fillNullsCol FillMethod.median (Col.strC svals) = Except.error () ∧
    fillNullsCol FillMethod.mean (Col.numC avals) = Except.ok (Col.numC avals) ∧
    fillNullsCol FillMethod.median (Col.numC avals) = Except.ok (Col.numC avals) ∧
    fillNullsCol FillMethod.mode (Col.numC avals) = Except.error () := by
  have hae : nonMissing avals = [] := (nonMissing_eq_nil_iff avals).mpr hall
  have hmean : meanOpt (nonMissing nvals) =
      some ((nonMissing nvals).sum / (nonMissing nvals).length) := by
    rw [meanOpt, if_neg hnum]
  obtain ⟨mv, hmv⟩ : ∃ mv, medianOpt (nonMissing nvals) = some mv := by
    simp only [medianOpt]
    rw [if_neg hnum]
    split
    · exact ⟨_, rfl⟩
    · exact ⟨_, rfl⟩
  obtain ⟨movn, hmodn⟩ := modeZero_isSome hnum
  obtain ⟨movs, hmods⟩ := modeZero_isSome hstr
  refine ⟨?_, ?_, ?_, ?_, rfl, rfl, ?_, ?_, ?_⟩
  · refine ⟨fillWithOpt nvals (meanOpt (nonMissing nvals)), rfl, ?_⟩
    rw [hmean]
    exact hasMissing_fillWith _ _
  · refine ⟨fillWithOpt nvals (medianOpt (nonMissing nvals)), rfl, ?_⟩
    rw [hmv]
    exact hasMissing_fillWith _ _
  · refine ⟨fillWith nvals movn, ?_, hasMissing_fillWith _ _⟩
    simp only [fillNullsCol, hmodn]
  · refine ⟨fillWith svals movs, ?_, hasMissing_fillWith _ _⟩
    simp only [fillNullsCol, hmods]
  · simp only [fillNullsCol, hae]
    rfl
  · simp only [fillNullsCol, hae]
    rfl
  · simp only [fillNullsCol, hae]
    rfl

/-- Witness for C3 on concrete numeric, text and all-missing columns. -/
theorem claim3_fill_nulls_witness :
    (nonMissing [some (1 : ℚ), none] ≠ [] ∧
      nonMissing [some "a", none] ≠ [] ∧
      ∀ o ∈ ([none, none] : List (Option ℚ)), o = none) ∧
    ((∃ r, fillNullsCol FillMethod.mean (Col.numC [some 1, none]) =
        Except.ok (Col.numC r) ∧ hasMissing r = false) ∧
      (∃ r, fillNullsCol FillMethod.median (Col.numC [some 1, none]) =
        Except.ok (Col.numC r) ∧ hasMissing r = false) ∧
      (∃ r, fillNullsCol FillMethod.mode (Col.numC [some 1, none]) =
        Except.ok (Col.numC r) ∧ hasMissing r = false) ∧
      (∃ r, fillNullsCol FillMethod.mode (Col.strC [some "a", none]) =
        Except.ok (Col.strC r) ∧ hasMissing r = false) ∧
      fillNullsCol FillMethod.mean (Col.strC [some "a", none]) = Except.error () ∧
      fillNullsCol FillMethod.median (Col.strC [some "a", none]) = Except.error () ∧
      fillNullsCol FillMethod.mean (Col.numC [none, none]) =
        Except.ok (Col.numC [none, none]) ∧
      fillNullsCol FillMethod.median (Col.numC [none, none]) =
        Except.ok (Col.numC [none, none]) ∧
      fillNullsCol FillMethod.mode (Col.numC [none, none]) = Except.error ()) :=
  ⟨⟨by decide, by decide, by decide⟩,
    claim3_fill_nulls [some 1, none] [none, none] [some "a", none]
      (by decide) (by decide) (by decide)⟩

/-- Mean and sample variance of a z-scored list of values: exactly 0
and 1 once the scale `s` squares to the sample variance `v ≠ 0`. -/
theorem zscore_mean_var (xs : List ℚ) (s v : ℚ)
    (h2 : 2 ≤ xs.length)
    (hS : (xs.map (fun x => (x - xs.sum / xs.length) ^ 2)).sum =
      v * ((xs.length : ℚ) - 1))
    (hs2 : s ^ 2 = v) (hv : v ≠ 0) :
    meanOpt (xs.map (fun x => (x - xs.sum / xs.length) / s)) = some 0 ∧
    sampleVar (xs.map (fun x => (x - xs.sum / xs.length) / s)) = some 1 := by
  have hne : xs ≠ [] := by
    intro h
    rw [h] at h2
    simp at h2
  have hnQ : ((xs.length : ℚ)) ≠ 0 := by
    have h0 : xs.length ≠ 0 := by omega
    exact_mod_cast h0
  have h2Q : (2 : ℚ) ≤ (xs.length : ℚ) := by exact_mod_cast h2
  have hn1 : ((xs.length : ℚ) - 1) ≠ 0 := by
    intro h
    have : ((xs.length : ℚ)) = 1 := by linarith
    linarith
  have hs : s ≠ 0 := by
    intro h0
    rw [h0] at hs2
    simp at hs2
    exact hv hs2.symm
  have hdm : (fun x => (x - xs.sum / xs.length) / s) =
      (fun x => (x - xs.sum / xs.length) * s⁻¹) := by
    funext x
    rw [div_eq_mul_inv]
  have hzsum : (xs.map (fun x => (x - xs.sum / xs.length) / s)).sum = 0 := by
    rw [hdm, sum_map_sub_mul]
    have hz : xs.sum - (xs.length : ℚ) * (xs.sum / xs.length) = 0 := by
      field_simp
    rw [hz, zero_mul]
  have hzlen : (xs.map (fun x => (x - xs.sum / xs.length) / s)).length = xs.length :=
    List.length_map _ _
  have hzne : xs.map (fun x => (x - xs.sum / xs.length) / s) ≠ [] := by
    intro h
    exact hne (List.map_eq_nil_iff.mp h)
  constructor
  · rw [meanOpt, if_neg hzne, hzsum]
    norm_num
  · rw [sampleVar, if_neg (by rw [hzlen]; omega)]
    rw [hzsum, hzlen]
    congr 1
    simp only [zero_div, sub_zero]
    rw [List.map_map]
    have hcmp : ((fun z => z ^ 2) ∘ fun x => (x - xs.sum / xs.length) / s) =
        (fun x => ((x - xs.sum / xs.length) * s⁻¹) ^ 2) := by
      funext x
      simp [Function.comp, div_eq_mul_inv]
    rw [hcmp, sum_map_sq_mul, hS, inv_pow, hs2]
    field_simp

/-- C7: the z-score branch on a numeric column of nonzero sample
variance appends a new `_zscore` column — leaving the source column
intact — whose entries are `(x - mean) / std` (missing entries staying
missing), and the non-missing values of the new column have mean
exactly 0 and sample variance exactly 1 (hence standard deviation 1);
the app computes this in floating point, so the claim's "up to
floating-point tolerance" is the exact-arithmetic statement proved
here, with the standard deviation `s` given by the exact square root
of the variance. -/
theorem claim7_zscore (t : Table) (cl : String) (vals : List (Option ℚ))
    (m s v : ℚ)
    (hcol : getCol t cl = some (Col.numC vals))
    (hmean : meanOpt (nonMissing vals) = some m)
    (hvar : sampleVar (nonMissing vals) = some v)
    (hstd : sampleStd (nonMissing vals) = some s)
    (hv : v ≠ 0) :
    getCol (numTransTable cl NumMethod.zscore t) (cl ++ "_zscore") =
      some (Col.numC (zscoreCol vals)) ∧
    getCol (numTransTable cl NumMethod.zscore t) cl = some (Col.numC vals) ∧
    zscoreCol vals = vals.map (fun o => o.bind (fun x => some ((x - m) / s))) ∧
    meanOpt (nonMissing (zscoreCol vals)) = some 0 ∧
    sampleVar (nonMissing (zscoreCol vals)) = some 1 := by
  have hrs : ratSqrt v = some s := by
    rw [sampleStd, hvar] at hstd
    simpa using hstd
  obtain ⟨hs0, hs2⟩ := ratSqrt_correct hrs
  have hs : s ≠ 0 := by
    intro h0
    rw [h0] at hs2
    simp at hs2
    exact hv hs2.symm
  have hlen2 : 2 ≤ (nonMissing vals).length := by
    by_contra hcon
    rw [sampleVar, if_pos (by omega)] at hvar
    cases hvar
  have hn1 : (((nonMissing vals).length : ℚ) - 1) ≠ 0 := by
    have h2Q : (2 : ℚ) ≤ ((nonMissing vals).length : ℚ) := by exact_mod_cast hlen2
    intro h
    linarith
  have hS : ((nonMissing vals).map
      (fun x => (x - (nonMissing vals).sum / (nonMissing vals).length) ^ 2)).sum =
      v * (((nonMissing vals).length : ℚ) - 1) := by
    rw [sampleVar, if_neg (by omega)] at hvar
    have hq := Option.some.inj hvar
    rw [div_eq_iff hn1] at hq
    exact hq
  have hne : nonMissing vals ≠ [] := by
    intro h
    rw [h] at hlen2
    simp at hlen2
  have hm : m = (nonMissing vals).sum / (nonMissing vals).length := by
    rw [meanOpt, if_neg hne] at hmean
    exact (Option.some.inj hmean).symm
  have htab : numTransTable cl NumMethod.zscore t =
      setCol t (cl ++ "_zscore") (Col.numC (zscoreCol vals)) := by
    rw [numTransTable, hcol]
  have hzdef : zscoreCol vals =
      vals.map (fun o => o.bind (fun x => some ((x - m) / s))) := by
    rw [zscoreCol, hmean, hstd]
    simp only [pdDiv_of_ne hs]
  have hznon : nonMissing (zscoreCol vals) =
      (nonMissing vals).map (fun x => (x - m) / s) := by
    rw [hzdef, nonMissing_map_bind]
  have hmv := zscore_mean_var (nonMissing vals) s v hlen2 hS hs2 hv
  rw [← hm] at hmv
  refine ⟨?_, ?_, hzdef, ?_, ?_⟩
  · rw [htab, getCol_setCol_self]
  · rw [htab, getCol_setCol_ne _ (self_ne_append (by decide)) _]
    exact hcol
  · rw [hznon]
    exact hmv.1
  · rw [hznon]
    exact hmv.2

/-- Witness for C7 on the concrete column `[0, 2, 4]`: mean 2, sample
variance 4, sample standard deviation 2. -/
theorem claim7_zscore_witness :
    (getCol tblC7 "x" = some (Col.numC [some 0, some 2, some 4]) ∧
      meanOpt (nonMissing [some (0 : ℚ), some 2, some 4]) = some 2 ∧
      sampleVar (nonMissing [some (0 : ℚ), some 2, some 4]) = some 4 ∧
      sampleStd (nonMissing [some (0 : ℚ), some 2, some 4]) = some 2 ∧
      (4 : ℚ) ≠ 0) ∧
    (getCol (numTransTable "x" NumMethod.zscore tblC7) ("x" ++ "_zscore") =
        some (Col.numC (zscoreCol [some 0, some 2, some 4])) ∧
      getCol (numTransTable "x" NumMethod.zscore tblC7) "x" =
        some (Col.numC [some 0, some 2, some 4]) ∧
      zscoreCol [some (0 : ℚ), some 2, some 4] =
        [some (0 : ℚ), some 2, some 4].map
          (fun o => o.bind (fun x => some ((x - 2) / 2))) ∧
      meanOpt (nonMissing (zscoreCol [some (0 : ℚ), some 2, some 4])) = some 0 ∧
      sampleVar (nonMissing (zscoreCol [some (0 : ℚ), some 2, some 4])) = some 1) := by
  have hnm : nonMissing [some (0 : ℚ), some 2, some 4] = [0, 2, 4] := rfl
  have hmean : meanOpt (nonMissing [some (0 : ℚ), some 2, some 4]) = some 2 := by
    rw [hnm, meanOpt, if_neg (by decide)]
    norm_num
  have hvar : sampleVar (nonMissing [some (0 : ℚ), some 2, some 4]) = some 4 := by
    rw [hnm, sampleVar, if_neg (by decide)]
    norm_num
  have hsq4 : Nat.sqrt 4 = 2 := by
    show Nat.sqrt (2 * 2) = 2
    exact Nat.sqrt_eq 2
  have hsq1 : Nat.sqrt 1 = 1 := by
    show Nat.sqrt (1 * 1) = 1
    exact Nat.sqrt_eq 1
  have hrs : ratSqrt 4 = some 2 := by
    have e1 : (4 : ℚ).num.toNat = 4 := by decide
    have e2 : (4 : ℚ).den = 1 := by decide
    simp only [ratSqrt, e1, e2, hsq4, hsq1]
    rw [if_pos ⟨by decide, by decide, by decide⟩]
    norm_num
  have hstd : sampleStd (nonMissing [some (0 : ℚ), some 2, some 4]) = some 2 := by
    rw [sampleStd, hvar]
    simpa using hrs
  exact ⟨⟨by decide, hmean, hvar, hstd, by decide⟩,
    claim7_zscore tblC7 "x" [some 0, some 2, some 4] 2 2 4
      (by decide) hmean hvar hstd (by decide)⟩

end AnalyticApp
